import Mathlib

/-!
Verification of the circuit synthesis engine of the IgnitionHacks repository
(`main.py`): the pattern-based diagram generation path, consisting of the
pin-allocator classes, the component wiring dispatch, the wire-path router,
the automatic resistor inserter and the diagram assembler.

Modelling conventions:
* Python strings are modelled as `List Char` (`Str`); `startswith`,
  `endswith` and the `in` substring operator become the boolean functions
  `preB`, `sufB`, `subB` below.
* Python part dictionaries become the `Part` structure.  `part.get('top', 0)`
  is modelled by a `top` field with default `0`.  Canvas coordinates are
  modelled as integers; the float scaling `int(delta * 0.1)` in
  `calculate_wire_paths` is modelled as integer division by 10 truncated
  toward zero (`Int.tdiv`), which agrees with the source on all inputs used
  by the claims, and Python's floor division `//` is `Int.fdiv`.
* `used_pins` is a Python set holding both ints and strings; it is modelled
  as a list of `PyPin` values with membership semantics.
* `str(conn)` (used by the resistor inserter's duplicate check) is modelled
  by `connRepr`, the Python repr of the four-element connection list,
  without escape sequences (no id in the claims needs escaping).
-/

namespace CircuitGen

set_option maxRecDepth 100000

/-- Python strings, modelled as lists of characters. -/
abbrev Str := List Char

/-- Literal helper: the characters of a Lean string literal. -/
def chars (s : String) : Str := s.data

/-- Python `str.lower()` (ASCII). -/
def lowerStr (s : Str) : Str := s.map Char.toLower

/-- Python `a.startswith(b)` is `preB b a = true` (b leads a). -/
def preB : Str → Str → Bool
  | [], _ => true
  | _ :: _, [] => false
  | x :: xs, y :: ys => x = y && preB xs ys

/-- Python `a.endswith(b)` is `sufB b a = true` (b trails a). -/
def sufB (a b : Str) : Bool := preB a.reverse b.reverse

/-- Python `a in b` (substring test) is `subB a b = true`. -/
def subB (a : Str) : Str → Bool
  | [] => preB a []
  | y :: ys => preB a (y :: ys) || subB a ys

/-- Python `str(n)` for a natural number. -/
def natStr (n : Nat) : Str := (toString n).data

/-- Python `str(i)` for an integer. -/
def intStr (i : Int) : Str := (toString i).data

/-- The last two characters of a string (used to discriminate pin-name
    suffixes such as `:A`, `:2`, `.1`). -/
def lastTwo (l : Str) : Str := l.drop (l.length - 2)

/-! ## Elementary facts about the string helpers -/

theorem preB_append (a t : Str) : preB a (a ++ t) = true := by
  induction a with
  | nil => rfl
  | cons x xs ih => simp [preB, ih]

theorem preB_iff (a b : Str) : preB a b = true ↔ ∃ t, a ++ t = b := by
  induction a generalizing b with
  | nil => simp [preB]
  | cons x xs ih =>
    cases b with
    | nil => simp [preB]
    | cons y ys =>
      simp only [preB, Bool.and_eq_true, decide_eq_true_eq, ih, List.cons_append,
        List.cons.injEq]
      constructor
      · rintro ⟨rfl, t, rfl⟩; exact ⟨t, rfl, rfl⟩
      · rintro ⟨t, rfl, rfl⟩; exact ⟨rfl, t, rfl⟩

theorem sufB_iff (a b : Str) : sufB a b = true ↔ ∃ t, t ++ a = b := by
  unfold sufB
  rw [preB_iff]
  constructor
  · rintro ⟨t, ht⟩
    refine ⟨t.reverse, ?_⟩
    have := congrArg List.reverse ht
    simp only [List.reverse_append, List.reverse_reverse] at this
    exact this
  · rintro ⟨t, rfl⟩
    exact ⟨t.reverse, by simp [List.reverse_append]⟩

theorem subB_iff (a b : Str) : subB a b = true ↔ ∃ s t, s ++ a ++ t = b := by
  induction b with
  | nil =>
    simp only [subB, preB_iff]
    constructor
    · rintro ⟨t, ht⟩; exact ⟨[], t, by simpa using ht⟩
    · rintro ⟨s, t, hst⟩
      have hs : s = [] := by
        cases s with
        | nil => rfl
        | cons x xs => simp at hst
      subst hs
      exact ⟨t, by simpa using hst⟩
  | cons y ys ih =>
    simp only [subB, Bool.or_eq_true, preB_iff, ih]
    constructor
    · rintro (⟨t, ht⟩ | ⟨s, t, hst⟩)
      · exact ⟨[], t, by simpa using ht⟩
      · exact ⟨y :: s, t, by simp [hst]⟩
    · rintro ⟨s, t, hst⟩
      cases s with
      | nil => exact Or.inl ⟨t, by simpa using hst⟩
      | cons z zs =>
        simp only [List.cons_append, List.cons.injEq] at hst
        exact Or.inr ⟨zs, t, by simp [hst.2]⟩

theorem subB_of_parts (s a t b : Str) (h : s ++ a ++ t = b) : subB a b = true :=
  (subB_iff a b).mpr ⟨s, t, h⟩

theorem subB_trans {a b c : Str} (h1 : subB a b = true) (h2 : subB b c = true) :
    subB a c = true := by
  obtain ⟨s1, t1, h1⟩ := (subB_iff a b).mp h1
  obtain ⟨s2, t2, h2⟩ := (subB_iff b c).mp h2
  exact (subB_iff a c).mpr ⟨s2 ++ s1, t1 ++ t2, by
    subst h1; subst h2; simp [List.append_assoc]⟩

theorem append_cancel_left_chars (a : Str) : ∀ {b c : Str}, a ++ b = a ++ c → b = c := by
  induction a with
  | nil => intro b c h; simpa using h
  | cons x xs ih => intro b c h; exact ih (by simpa using h)

theorem drop_append_length (a : Str) : ∀ (b : Str) (n : Nat), (a ++ b).drop (a.length + n) = b.drop n := by
  induction a with
  | nil => intro b n; simp
  | cons x xs ih =>
    intro b n
    have := ih b n
    simp only [List.cons_append, List.length_cons, List.drop_succ_cons, Nat.succ_add]
    exact this

theorem lastTwo_append {b : Str} (a : Str) (h : 2 ≤ b.length) :
    lastTwo (a ++ b) = lastTwo b := by
  unfold lastTwo
  have hlen : (a ++ b).length - 2 = a.length + (b.length - 2) := by
    simp only [List.length_append]; omega
  rw [hlen, drop_append_length]

theorem lastTwo_of_sufB {s l : Str} (h : sufB s l = true) (hs : s.length = 2)
    (hl : 2 ≤ l.length) : s = lastTwo l := by
  obtain ⟨t, rfl⟩ := (sufB_iff s l).mp h
  rw [lastTwo_append t (by omega)]
  unfold lastTwo
  rw [hs]
  rfl

theorem sufB_false_of_lastTwo {s l : Str} (hs : s.length = 2) (hl : 2 ≤ l.length)
    (hne : lastTwo l ≠ s) : sufB s l = false := by
  by_contra h
  have := lastTwo_of_sufB (by simpa using Bool.of_not_eq_false h) hs hl
  exact hne this.symm

/-! ## Data model: parts, connections, diagrams -/

/-- A placed component (`{"type": ..., "id": ..., "top": ..., "left": ...,
    "attrs": {...}}`).  Missing `top`/`left` keys default to 0, mirroring
    `part.get('top', 0)`. -/
structure Part where
  type : Str
  id : Str
  top : Int := 0
  left : Int := 0
  attrs : List (Str × Str) := []
  deriving DecidableEq, Repr

/-- A wire: the 4-element connection list
    `[source_pin, target_pin, color, path]`. -/
structure Conn where
  src : Str
  tgt : Str
  color : Str
  path : List Str
  deriving DecidableEq, Repr

/-- The pin reference string `f"{part_id}:{pin}"`. -/
def pinRef (pid pin : Str) : Str := pid ++ chars ":" ++ pin

/-- The final document assembled by `finalize_diagram` (serialisation to
    JSON text is omitted; the claims are about the structure). -/
structure Diagram where
  version : Nat
  author : Str
  editor : Str
  parts : List Part
  connections : List Conn
  deriving DecidableEq, Repr

/-- Result of `generate_with_patterns`: either the explicit error document
    `{"error": "No MCU found"}` or a full diagram. -/
inductive GenResult where
  | error (msg : Str)
  | ok (d : Diagram)
  deriving DecidableEq, Repr

/-- The connection list of a generation result (empty for the error
    document, which has no connections). -/
def resultConns : GenResult → List Conn
  | .error _ => []
  | .ok d => d.connections

/-- The parts list of a generation result. -/
def resultParts : GenResult → List Part
  | .error _ => []
  | .ok d => d.parts

/-! ## Pin allocators -/

/-- A value stored in the Python set `used_pins`: either an int pin number
    or a pin-name string. -/
inductive PyPin where
  | num (n : Nat)
  | str (s : Str)
  deriving DecidableEq, Repr

/-- The string handed to the caller for a pin (`str(pin)` for ints, the
    string itself otherwise). -/
def pinStr : PyPin → Str
  | .num n => natStr n
  | .str s => s

/-- The mutable cursor state created by `PinAllocator.__init__`. -/
structure AllocState where
  usedPins : List PyPin := []
  digitalPinIdx : Nat := 0
  analogPinIdx : Nat := 0
  pwmPinIdx : Nat := 0
  groundPinIdx : Nat := 0
  deriving Repr

/-- Fresh allocator state (all cursors zero, no used pins). -/
def initAllocState : AllocState := {}

/-- The static pin inventory of one microcontroller family: one value per
    concrete `PinAllocator` subclass. -/
structure PinFamily where
  digitalPins : List PyPin
  analogPins : List PyPin
  pwmPins : List PyPin
  groundPins : List Str
  digitalFallback : Str
  analogFallback : Str
  pwmFallback : Str
  power5v : Str
  power3v3 : Str
  sda : Str
  scl : Str
  spiMosi : Str
  spiMiso : Str
  spiSck : Str
  deriving DecidableEq, Repr

/-- The while loop of `get_next_digital`/`get_next_analog`: scan the pool
    from index `i`, skipping used pins; returns the pin found and the new
    cursor value.  `fuel` bounds the loop (`pool.length - i` at call site). -/
def nextFromPoolAux (pool used : List PyPin) : Nat → Nat → Option (PyPin × Nat)
  | 0, _ => none
  | fuel + 1, i =>
    if h : i < pool.length then
      if pool.get ⟨i, h⟩ ∈ used then nextFromPoolAux pool used fuel (i + 1)
      else some (pool.get ⟨i, h⟩, i + 1)
    else none

/-- Scan a pin pool from cursor `i` for the first pin not in `used`. -/
def nextFromPool (pool used : List PyPin) (i : Nat) : Option (PyPin × Nat) :=
  nextFromPoolAux pool used (pool.length - i) i

/-- The for loop of `get_next_pwm`: first pool pin not in `used`. -/
def firstUnused : List PyPin → List PyPin → Option PyPin
  | [], _ => none
  | p :: ps, used => if p ∈ used then firstUnused ps used else some p

/-- `get_next_digital`: next unused digital pin, marking it used, or the
    family fallback once the pool cursor is exhausted. -/
def getNextDigital (F : PinFamily) (s : AllocState) : Str × AllocState :=
  match nextFromPool F.digitalPins s.usedPins s.digitalPinIdx with
  | some (pin, i) =>
    (pinStr pin, { s with usedPins := pin :: s.usedPins, digitalPinIdx := i })
  | none => (F.digitalFallback, { s with digitalPinIdx := F.digitalPins.length })

/-- `get_next_analog`: same contract over the analog pool. -/
def getNextAnalog (F : PinFamily) (s : AllocState) : Str × AllocState :=
  match nextFromPool F.analogPins s.usedPins s.analogPinIdx with
  | some (pin, i) =>
    (pinStr pin, { s with usedPins := pin :: s.usedPins, analogPinIdx := i })
  | none => (F.analogFallback, { s with analogPinIdx := F.analogPins.length })

/-- `get_next_pwm`: first unused PWM pin (the source scans the whole pool
    each call and keeps no cursor), or the family fallback. -/
def getNextPwm (F : PinFamily) (s : AllocState) : Str × AllocState :=
  match firstUnused F.pwmPins s.usedPins with
  | some pin => (pinStr pin, { s with usedPins := pin :: s.usedPins })
  | none => (F.pwmFallback, s)

/-- `get_ground`: round-robin over the family ground pins
    (`ground_pins[self.ground_pin_idx % len(ground_pins)]`). -/
def getGround (F : PinFamily) (s : AllocState) : Str × AllocState :=
  (F.groundPins.getD (s.groundPinIdx % F.groundPins.length) [],
   { s with groundPinIdx := s.groundPinIdx + 1 })

/-- `ArduinoUnoPinAllocator`: digital 2-13, analog A0-A3 (A4/A5 reserved
    for I2C), PWM subset, three ground pins. -/
def ArduinoUnoPinAllocator : PinFamily where
  digitalPins := [2, 3, 4, 5, 6, 7, 8, 9, 10, 11, 12, 13].map PyPin.num
  analogPins := [chars "A0", chars "A1", chars "A2", chars "A3"].map PyPin.str
  pwmPins := [3, 5, 6, 9, 10, 11].map PyPin.num
  groundPins := [chars "GND.1", chars "GND.2", chars "GND.3"]
  digitalFallback := chars "2"
  analogFallback := chars "A0"
  pwmFallback := chars "3"
  power5v := chars "5V"
  power3v3 := chars "3.3V"
  sda := chars "A4"
  scl := chars "A5"
  spiMosi := chars "11"
  spiMiso := chars "12"
  spiSck := chars "13"

/-- `ArduinoMegaPinAllocator`: digital 2-53, analog A0-A15, four ground
    pins, fixed Mega I2C/SPI pins. -/
def ArduinoMegaPinAllocator : PinFamily where
  digitalPins := ((List.range 52).map (fun i => PyPin.num (i + 2)))
  analogPins := ((List.range 16).map (fun i => PyPin.str ('A' :: natStr i)))
  pwmPins := [2, 3, 4, 5, 6, 7, 8, 9, 10, 11, 12, 13, 44, 45, 46].map PyPin.num
  groundPins := [chars "GND.1", chars "GND.2", chars "GND.3", chars "GND.4"]
  digitalFallback := chars "2"
  analogFallback := chars "A0"
  pwmFallback := chars "3"
  power5v := chars "5V"
  power3v3 := chars "3.3V"
  sda := chars "20"
  scl := chars "21"
  spiMosi := chars "51"
  spiMiso := chars "50"
  spiSck := chars "52"

/-- `ESP32PinAllocator`: usable GPIO list, ADC1 analog pins (ints), three
    ground pins, fixed ESP32 I2C/SPI pins. -/
def ESP32PinAllocator : PinFamily where
  digitalPins := [2, 4, 5, 12, 13, 14, 15, 16, 17, 18, 19, 23, 25, 26, 27, 32, 33].map PyPin.num
  analogPins := [32, 33, 34, 35, 36, 39].map PyPin.num
  pwmPins := [2, 4, 5, 12, 13, 14, 15, 16, 17, 18, 19, 23, 25, 26, 27].map PyPin.num
  groundPins := [chars "GND.1", chars "GND.2", chars "GND.3"]
  digitalFallback := chars "2"
  analogFallback := chars "32"
  pwmFallback := chars "2"
  power5v := chars "5V"
  power3v3 := chars "3.3V"
  sda := chars "21"
  scl := chars "22"
  spiMosi := chars "23"
  spiMiso := chars "19"
  spiSck := chars "18"

/-- `ArduinoNanoPinAllocator` is the Uno allocator (`pass` subclass). -/
def ArduinoNanoPinAllocator : PinFamily := ArduinoUnoPinAllocator

/-- `get_pin_allocator`: substring dispatch on the lowered MCU type. -/
def getPinAllocator (mcuType : Str) : PinFamily :=
  if subB (chars "esp32") (lowerStr mcuType) then ESP32PinAllocator
  else if subB (chars "mega") (lowerStr mcuType) then ArduinoMegaPinAllocator
  else if subB (chars "uno") (lowerStr mcuType) then ArduinoUnoPinAllocator
  else if subB (chars "nano") (lowerStr mcuType) then ArduinoNanoPinAllocator
  else ArduinoUnoPinAllocator

/-! ## Wire router -/

/-- The eight named path templates of `calculate_wire_paths`. -/
structure WirePaths where
  power : List Str
  power_alt : List Str
  analog1 : List Str
  analog2 : List Str
  digital1 : List Str
  digital2 : List Str
  digital_alt1 : List Str
  digital_alt2 : List Str

/-- A vertical routing directive `f"v{n}"`. -/
def vdir (n : Int) : Str := 'v' :: intStr n

/-- A horizontal routing directive `f"h{n}"`. -/
def hdir (n : Int) : Str := 'h' :: intStr n

/-- The junction marker directive. -/
def star : Str := ['*']

/-- `calculate_wire_paths`: scale the position delta (int truncation of a
    0.1 factor, modelled as `Int.div _ 10`), clamp, then emit eight path
    variants.  Python `//` is floor division, `Int.fdiv`. -/
def calculateWirePaths (mcu comp : Part) : WirePaths :=
  let vOff0 : Int := Int.tdiv (comp.top - mcu.top) 10
  let hOff0 : Int := Int.tdiv (comp.left - mcu.left) 10
  let v : Int := max (min vOff0 100) (-100)
  let h : Int := max (min hOff0 150) (-150)
  { power := if v ≠ 0 then [vdir v, star, vdir (Int.fdiv (-v) 3)] else [star]
    power_alt :=
      if v ≠ 15 then [vdir (v - 15), star, vdir (Int.fdiv (-v) 3 + 8)]
      else [hdir 5, star, hdir (-5)]
    analog1 :=
      if v ≠ 25 then [vdir (v - 25), hdir (Int.fdiv h 3), star, vdir (Int.fdiv (-v) 4)]
      else [hdir (Int.fdiv h 3), star]
    analog2 :=
      if v ≠ 30 then [vdir (v - 30), hdir (Int.fdiv h 4), star, vdir (Int.fdiv (-v) 5)]
      else [hdir (Int.fdiv h 4), star]
    digital1 :=
      if v ≠ 35 then
        [vdir (v - 35), hdir (Int.fdiv h 5), star, hdir (Int.fdiv (-h) 10), vdir (Int.fdiv (-v) 6)]
      else [hdir (Int.fdiv h 5), star, hdir (Int.fdiv (-h) 10)]
    digital2 :=
      if v ≠ 40 then
        [vdir (v - 40), hdir (Int.fdiv h 6), star, hdir (Int.fdiv (-h) 12), vdir (Int.fdiv (-v) 7)]
      else [hdir (Int.fdiv h 6), star, hdir (Int.fdiv (-h) 12)]
    digital_alt1 :=
      if v ≠ 45 then [vdir (v - 45), hdir (Int.fdiv h 7), star, vdir (Int.fdiv (-v) 8)]
      else [hdir (Int.fdiv h 7), star]
    digital_alt2 :=
      if v ≠ 50 then [vdir (v - 50), hdir (Int.fdiv h 8), star, vdir (Int.fdiv (-v) 9)]
      else [hdir (Int.fdiv h 8), star] }

/-! ## Component wiring rules -/

/-- The MCU-detection predicate of `generate_with_patterns`:
    `any(x in part['type'].lower() for x in ['arduino','esp32','mega','nano'])`. -/
def mcuMatchB (t : Str) : Bool :=
  subB (chars "arduino") (lowerStr t) || subB (chars "esp32") (lowerStr t) ||
  subB (chars "mega") (lowerStr t) || subB (chars "nano") (lowerStr t)

/-- The component category reached by the if/elif substring dispatch in
    `generate_with_patterns` (in source order). -/
inductive PartCategory where
  | oled | tft | sdcard | button | buzzer | led | resistor | dht | servo
  | ultrasonic | pot | other
  deriving DecidableEq, Repr

/-- Classify a part type exactly as the if/elif chain does. -/
def categorize (t : Str) : PartCategory :=
  let lt := lowerStr t
  if subB (chars "ssd1306") lt || subB (chars "oled") lt then .oled
  else if subB (chars "ili9341") lt || subB (chars "tft") lt then .tft
  else if subB (chars "microsd") lt || subB (chars "sd") lt then .sdcard
  else if subB (chars "pushbutton") lt || subB (chars "button") lt then .button
  else if subB (chars "buzzer") lt || subB (chars "piezo") lt then .buzzer
  else if subB (chars "led") lt then .led
  else if subB (chars "resistor") lt then .resistor
  else if subB (chars "dht") lt || subB (chars "temperature") lt || subB (chars "humidity") lt then .dht
  else if subB (chars "servo") lt then .servo
  else if subB (chars "ultrasonic") lt || subB (chars "hc-sr04") lt then .ultrasonic
  else if subB (chars "potentiometer") lt || subB (chars "pot") lt then .pot
  else .other

/-- The per-part body of the wiring loop of `generate_with_patterns`:
    dispatch on the category, consult the allocator in source order, and
    emit that part's connections. -/
def wireComponent (F : PinFamily) (mcu p : Part) (s : AllocState) :
    List Conn × AllocState :=
  let w := calculateWirePaths mcu p
  match categorize p.type with
  | .oled =>
    let power := if F.power3v3 = [] then F.power5v else F.power3v3
    let g := getGround F s
    ([⟨pinRef mcu.id g.1, pinRef p.id (chars "GND"), chars "black", w.power⟩,
      ⟨pinRef mcu.id power, pinRef p.id (chars "VCC"), chars "red", w.power_alt⟩,
      ⟨pinRef mcu.id F.sda, pinRef p.id (chars "SDA"), chars "gold", w.analog1⟩,
      ⟨pinRef mcu.id F.scl, pinRef p.id (chars "SCL"), chars "cyan", w.analog2⟩],
     g.2)
  | .tft =>
    let r1 := getNextDigital F s
    let r2 := getNextDigital F r1.2
    let r3 := getNextDigital F r2.2
    let g := getGround F r3.2
    ([⟨pinRef mcu.id g.1, pinRef p.id (chars "GND"), chars "black", w.power⟩,
      ⟨pinRef mcu.id F.power5v, pinRef p.id (chars "VCC"), chars "red", w.power_alt⟩,
      ⟨pinRef mcu.id r1.1, pinRef p.id (chars "CS"), chars "violet", w.digital1⟩,
      ⟨pinRef mcu.id r2.1, pinRef p.id (chars "RESET"), chars "purple", w.digital2⟩,
      ⟨pinRef mcu.id r3.1, pinRef p.id (chars "DC"), chars "#8f4814", w.analog1⟩,
      ⟨pinRef mcu.id F.spiMosi, pinRef p.id (chars "MOSI"), chars "green", w.analog2⟩,
      ⟨pinRef mcu.id F.spiMiso, pinRef p.id (chars "MISO"), chars "orange", w.digital_alt1⟩,
      ⟨pinRef mcu.id F.spiSck, pinRef p.id (chars "SCK"), chars "gray", w.digital_alt2⟩],
     g.2)
  | .sdcard =>
    let r1 := getNextDigital F s
    let g := getGround F r1.2
    ([⟨pinRef mcu.id g.1, pinRef p.id (chars "GND"), chars "black", w.power⟩,
      ⟨pinRef mcu.id F.power5v, pinRef p.id (chars "VCC"), chars "red", w.power_alt⟩,
      ⟨pinRef mcu.id r1.1, pinRef p.id (chars "CS"), chars "blue", w.digital1⟩,
      ⟨pinRef mcu.id F.spiMosi, pinRef p.id (chars "MOSI"), chars "green", w.digital2⟩,
      ⟨pinRef mcu.id F.spiMiso, pinRef p.id (chars "MISO"), chars "orange", w.analog1⟩,
      ⟨pinRef mcu.id F.spiSck, pinRef p.id (chars "SCK"), chars "gray", w.analog2⟩],
     g.2)
  | .button =>
    let r1 := getNextDigital F s
    let g := getGround F r1.2
    ([⟨pinRef mcu.id r1.1, pinRef p.id (chars "1.l"), chars "green", w.digital1⟩,
      ⟨pinRef mcu.id g.1, pinRef p.id (chars "2.l"), chars "black", w.power⟩],
     g.2)
  | .buzzer =>
    let r1 := getNextDigital F s
    let g := getGround F r1.2
    ([⟨pinRef mcu.id g.1, pinRef p.id (chars "1"), chars "black", w.power⟩,
      ⟨pinRef mcu.id r1.1, pinRef p.id (chars "2"), chars "purple", w.digital1⟩],
     g.2)
  | .led =>
    let r1 := getNextDigital F s
    let g := getGround F r1.2
    ([⟨pinRef mcu.id r1.1, pinRef p.id (chars "A"), chars "red", w.digital1⟩,
      ⟨pinRef mcu.id g.1, pinRef p.id (chars "C"), chars "black", w.power⟩],
     g.2)
  | .resistor =>
    let r1 := getNextDigital F s
    let r2 := getNextDigital F r1.2
    ([⟨pinRef mcu.id r1.1, pinRef p.id (chars "1"), chars "yellow", w.digital1⟩,
      ⟨pinRef mcu.id r2.1, pinRef p.id (chars "2"), chars "orange", w.digital2⟩],
     r2.2)
  | .dht =>
    let r1 := getNextDigital F s
    let g := getGround F r1.2
    ([⟨pinRef mcu.id g.1, pinRef p.id (chars "GND"), chars "black", w.power⟩,
      ⟨pinRef mcu.id F.power5v, pinRef p.id (chars "VCC"), chars "red", w.power_alt⟩,
      ⟨pinRef mcu.id r1.1, pinRef p.id (chars "SDA"), chars "blue", w.digital1⟩],
     g.2)
  | .servo =>
    let r1 := getNextPwm F s
    let g := getGround F r1.2
    ([⟨pinRef mcu.id g.1, pinRef p.id (chars "GND"), chars "brown", w.power⟩,
      ⟨pinRef mcu.id F.power5v, pinRef p.id (chars "V+"), chars "red", w.power_alt⟩,
      ⟨pinRef mcu.id r1.1, pinRef p.id (chars "PWM"), chars "orange", w.digital1⟩],
     g.2)
  | .ultrasonic =>
    let r1 := getNextDigital F s
    let r2 := getNextDigital F r1.2
    let g := getGround F r2.2
    ([⟨pinRef mcu.id g.1, pinRef p.id (chars "GND"), chars "black", w.power⟩,
      ⟨pinRef mcu.id F.power5v, pinRef p.id (chars "VCC"), chars "red", w.power_alt⟩,
      ⟨pinRef mcu.id r1.1, pinRef p.id (chars "TRIG"), chars "blue", w.digital1⟩,
      ⟨pinRef mcu.id r2.1, pinRef p.id (chars "ECHO"), chars "green", w.digital2⟩],
     g.2)
  | .pot =>
    let r1 := getNextAnalog F s
    let g := getGround F r1.2
    ([⟨pinRef mcu.id g.1, pinRef p.id (chars "GND"), chars "black", w.power⟩,
      ⟨pinRef mcu.id F.power5v, pinRef p.id (chars "VCC"), chars "red", w.power_alt⟩,
      ⟨pinRef mcu.id r1.1, pinRef p.id (chars "SIG"), chars "yellow", w.analog1⟩],
     g.2)
  | .other =>
    let r1 := getNextDigital F s
    let g := getGround F r1.2
    ([⟨pinRef mcu.id g.1, pinRef p.id (chars "GND"), chars "black", w.power⟩,
      ⟨pinRef mcu.id r1.1, pinRef p.id (chars "SIG"), chars "gray", w.digital1⟩],
     g.2)

/-- The wiring loop: every part other than the MCU (Python `part == mcu`
    is structural equality) contributes its connections in input order. -/
def wireAll (F : PinFamily) (mcu : Part) : List Part → AllocState → List Conn × AllocState
  | [], s => ([], s)
  | p :: ps, s =>
    if p = mcu then wireAll F mcu ps s
    else
      let r := wireComponent F mcu p s
      let rest := wireAll F mcu ps r.2
      (r.1 ++ rest.1, rest.2)

/-! ## Safety-component inserter -/

/-- A single-quote character (for the Python repr of strings). -/
def sq : Char := Char.ofNat 39

/-- Python repr of a string, without escape sequences. -/
def quoteStr (s : Str) : Str := sq :: s ++ [sq]

/-- Comma-space join of already-quoted items. -/
def joinComma : List Str → Str
  | [] => []
  | [x] => x
  | x :: y :: xs => x ++ chars ", " ++ joinComma (y :: xs)

/-- Python repr of a list of strings. -/
def listRepr (xs : List Str) : Str :=
  chars "[" ++ joinComma (xs.map quoteStr) ++ chars "]"

/-- Python `str(conn)` for a connection
    `[source, target, color, [path...]]`. -/
def connRepr (c : Conn) : Str :=
  chars "[" ++ quoteStr c.src ++ chars ", " ++ quoteStr c.tgt ++ chars ", " ++
  quoteStr c.color ++ chars ", " ++ listRepr c.path ++ chars "]"

/-- The `has_resistor` check of `add_automatic_resistors`: some part with
    "resistor" in its type appears, by substring, in some connection repr
    that also mentions the protected part's id. -/
def hasResistorB (pid : Str) (parts : List Part) (conns : List Conn) : Bool :=
  parts.any fun p =>
    subB (chars "resistor") (lowerStr p.type) &&
    conns.any fun c => subB p.id (connRepr c) && subB pid (connRepr c)

/-- A component needing a resistor, paired with the resistor ohm value. -/
abbrev NeededItem := Part × Str

/-- The `components_needing_resistors` scan: unprotected LEDs get a 220
    ohm resistor, unprotected piezo buzzers a 100 ohm resistor. -/
def componentsNeedingResistors (parts : List Part) (conns : List Conn) :
    List NeededItem :=
  parts.filterMap fun part =>
    if subB (chars "led") (lowerStr part.type) then
      if hasResistorB part.id parts conns then none else some (part, chars "220")
    else if subB (chars "piezo") (lowerStr part.type) then
      if hasResistorB part.id parts conns then none else some (part, chars "100")
    else none

/-- The synthesized resistor part for counter value `k`
    (`R{k}`, placed near the protected component). -/
def mkResistorPart (k : Nat) (comp : Part) (v : Str) : Part where
  type := chars "wokwi-resistor"
  id := chars "R" ++ natStr k
  top := comp.top + 30
  left := comp.left - 50
  attrs := [(chars "value", v)]

/-- Rewrite one connection for one inserted resistor: a wire into the
    protected pin (LED anode `:A`, piezo signal `:2`) is split into
    MCU-to-resistor and resistor-to-part hops; everything else passes
    through. -/
def rewriteConn (comp : Part) (rid : Str) (c : Conn) : List Conn :=
  if preB (comp.id ++ chars ":") c.tgt then
    if subB (chars "led") (lowerStr comp.type) && sufB (chars ":A") c.tgt then
      [⟨c.src, rid ++ chars ":1", c.color, c.path⟩,
       ⟨rid ++ chars ":2", c.tgt, c.color, [chars "h10", star, chars "h-5"]⟩]
    else if subB (chars "piezo") (lowerStr comp.type) && sufB (chars ":2") c.tgt then
      [⟨c.src, rid ++ chars ":1", c.color, c.path⟩,
       ⟨rid ++ chars ":2", c.tgt, c.color, [chars "h10", star, chars "h-5"]⟩]
    else [c]
  else [c]

/-- One full pass of the connection-rewrite loop for one inserted resistor. -/
def rewritePass (comp : Part) (rid : Str) : List Conn → List Conn
  | [] => []
  | c :: cs => rewriteConn comp rid c ++ rewritePass comp rid cs

/-- The per-item loop of `add_automatic_resistors`: append the synthesized
    resistor part and, when an MCU was found, rewrite the connections;
    `k` is the running `resistor_counter`. -/
def addAutoLoop (mcuFound : Bool) : Nat → List NeededItem → List Part → List Conn →
    List Part × List Conn
  | _, [], ps, cs => (ps, cs)
  | k, (comp, v) :: rest, ps, cs =>
    let rid := chars "R" ++ natStr k
    addAutoLoop mcuFound (k + 1) rest (ps ++ [mkResistorPart k comp v])
      (if mcuFound then rewritePass comp rid cs else cs)

/-- `add_automatic_resistors`: detect unprotected LEDs and piezos, then
    append resistor parts and splice the wiring (the MCU search inside the
    routine runs over the original parts list). -/
def addAutomaticResistors (parts : List Part) (conns : List Conn) :
    List Part × List Conn :=
  addAutoLoop (parts.find? fun p => mcuMatchB p.type).isSome 1
    (componentsNeedingResistors parts conns) parts conns

/-- `finalize_diagram`: fixed metadata plus the final parts and wires. -/
def finalizeDiagram (parts : List Part) (conns : List Conn) : Diagram where
  version := 1
  author := chars "RAG AI Generator"
  editor := chars "wokwi"
  parts := parts
  connections := conns

/-- `generate_with_patterns`: find the first MCU-family part (else emit
    the error document), construct a fresh allocator for its family, wire
    every other part, insert safety resistors, and assemble the diagram. -/
def generateWithPatterns (parts : List Part) : GenResult :=
  match parts.find? (fun p => mcuMatchB p.type) with
  | none => .error (chars "No MCU found")
  | some mcu =>
    let F := getPinAllocator mcu.type
    let conns := (wireAll F mcu parts initAllocState).1
    let r := addAutomaticResistors parts conns
    .ok (finalizeDiagram r.1 r.2)

/-! ## Allocator facts -/

/-- All pins tracked in `used_pins` by the three general-purpose getters. -/
def familyPool (F : PinFamily) : List PyPin :=
  F.digitalPins ++ F.analogPins ++ F.pwmPins

/-- Distinct pool entries have distinct caller-visible pin strings (a
    per-family fact, checked by evaluation). -/
abbrev pinStrInjOn (F : PinFamily) : Prop :=
  ∀ a ∈ familyPool F, ∀ b ∈ familyPool F, pinStr a = pinStr b → a = b

theorem nextFromPoolAux_some {pool used : List PyPin} :
    ∀ {fuel i pin j}, nextFromPoolAux pool used fuel i = some (pin, j) →
      pin ∈ pool ∧ pin ∉ used := by
  intro fuel
  induction fuel with
  | zero => intro i pin j h; simp [nextFromPoolAux] at h
  | succ n ih =>
    intro i pin j h
    unfold nextFromPoolAux at h
    split at h
    · split at h
      · exact ih h
      · rename_i hmem
        simp only [Option.some.injEq, Prod.mk.injEq] at h
        rcases h with ⟨rfl, rfl⟩
        exact ⟨List.get_mem _ _ _, hmem⟩
    · simp at h

theorem nextFromPool_some {pool used : List PyPin} {i : Nat} {pin : PyPin} {j : Nat}
    (h : nextFromPool pool used i = some (pin, j)) : pin ∈ pool ∧ pin ∉ used :=
  nextFromPoolAux_some h

theorem firstUnused_some {used : List PyPin} :
    ∀ {pool pin}, firstUnused pool used = some pin → pin ∈ pool ∧ pin ∉ used := by
  intro pool
  induction pool with
  | nil => intro pin h; simp [firstUnused] at h
  | cons p ps ih =>
    intro pin h
    unfold firstUnused at h
    split at h
    · have := ih h
      exact ⟨List.mem_cons_of_mem _ this.1, this.2⟩
    · rename_i hmem
      simp only [Option.some.injEq] at h
      subst h
      exact ⟨List.mem_cons_self _ _, hmem⟩

/-- One of the three general-purpose allocation requests (named after the
    getter invoked). -/
inductive AllocReq where
  | digital
  | analog
  | pwm
  deriving DecidableEq, Repr

/-- One allocator call, together with a flag recording whether the call
    fell through to the family fallback pin (pool exhaustion). -/
def allocStep (F : PinFamily) (s : AllocState) : AllocReq → (Str × Bool) × AllocState
  | .digital =>
    (((getNextDigital F s).1,
      (nextFromPool F.digitalPins s.usedPins s.digitalPinIdx).isNone),
     (getNextDigital F s).2)
  | .analog =>
    (((getNextAnalog F s).1,
      (nextFromPool F.analogPins s.usedPins s.analogPinIdx).isNone),
     (getNextAnalog F s).2)
  | .pwm =>
    (((getNextPwm F s).1, (firstUnused F.pwmPins s.usedPins).isNone),
     (getNextPwm F s).2)

/-- Run a sequence of allocation requests against one allocator instance,
    collecting the dispensed pin strings and their fallback flags. -/
def runAllocs (F : PinFamily) : List AllocReq → AllocState → List (Str × Bool) × AllocState
  | [], s => ([], s)
  | r :: rs, s =>
    let x := allocStep F s r
    let rest := runAllocs F rs x.2
    (x.1 :: rest.1, rest.2)

theorem allocStep_false {F : PinFamily} {s : AllocState} {r : AllocReq}
    {out : Str} {s' : AllocState}
    (h : allocStep F s r = ((out, false), s')) :
    ∃ q, q ∈ familyPool F ∧ q ∉ s.usedPins ∧ out = pinStr q ∧
      s'.usedPins = q :: s.usedPins := by
  cases r with
  | digital =>
    cases hnp : nextFromPool F.digitalPins s.usedPins s.digitalPinIdx with
    | none => simp [allocStep, hnp] at h
    | some v =>
      obtain ⟨pin, j⟩ := v
      have hm := nextFromPool_some hnp
      simp only [allocStep, getNextDigital, hnp, Option.isNone_some, Prod.mk.injEq] at h
      refine ⟨pin, ?_, hm.2, h.1.1.symm, ?_⟩
      · exact List.mem_append_left _ (List.mem_append_left _ hm.1)
      · rw [← h.2]
  | analog =>
    cases hnp : nextFromPool F.analogPins s.usedPins s.analogPinIdx with
    | none => simp [allocStep, hnp] at h
    | some v =>
      obtain ⟨pin, j⟩ := v
      have hm := nextFromPool_some hnp
      simp only [allocStep, getNextAnalog, hnp, Option.isNone_some, Prod.mk.injEq] at h
      refine ⟨pin, ?_, hm.2, h.1.1.symm, ?_⟩
      · exact List.mem_append_left _ (List.mem_append_right _ hm.1)
      · rw [← h.2]
  | pwm =>
    cases hnp : firstUnused F.pwmPins s.usedPins with
    | none => simp [allocStep, hnp] at h
    | some pin =>
      have hm := firstUnused_some hnp
      simp only [allocStep, getNextPwm, hnp, Option.isNone_some, Prod.mk.injEq] at h
      refine ⟨pin, ?_, hm.2, h.1.1.symm, ?_⟩
      · exact List.mem_append_right _ hm.1
      · rw [← h.2]

theorem allocStep_used_mono (F : PinFamily) (s : AllocState) (r : AllocReq) :
    ∀ q ∈ s.usedPins, q ∈ (allocStep F s r).2.usedPins := by
  intro q hq
  cases r with
  | digital =>
    cases hnp : nextFromPool F.digitalPins s.usedPins s.digitalPinIdx with
    | none => simpa [allocStep, getNextDigital, hnp] using hq
    | some v => simp [allocStep, getNextDigital, hnp, hq]
  | analog =>
    cases hnp : nextFromPool F.analogPins s.usedPins s.analogPinIdx with
    | none => simpa [allocStep, getNextAnalog, hnp] using hq
    | some v => simp [allocStep, getNextAnalog, hnp, hq]
  | pwm =>
    cases hnp : firstUnused F.pwmPins s.usedPins with
    | none => simpa [allocStep, getNextPwm, hnp] using hq
    | some pin => simp [allocStep, getNextPwm, hnp, hq]

theorem runAllocs_mem {F : PinFamily} :
    ∀ {rs : List AllocReq} {s : AllocState} {x : Str × Bool},
      x ∈ (runAllocs F rs s).1 → x.2 = false →
      ∃ q, q ∈ familyPool F ∧ pinStr q = x.1 ∧ q ∉ s.usedPins := by
  intro rs
  induction rs with
  | nil => intro s x hx; simp [runAllocs] at hx
  | cons r rs ih =>
    intro s x hx hflag
    rcases hstep : allocStep F s r with ⟨⟨out, flag⟩, s'⟩
    simp only [runAllocs, hstep, List.mem_cons] at hx
    rcases hx with rfl | hx
    · simp only at hflag
      subst hflag
      obtain ⟨q, hq1, hq2, hq3, _⟩ := allocStep_false hstep
      exact ⟨q, hq1, hq3.symm, hq2⟩
    · obtain ⟨q, hq1, hq2, hq3⟩ := ih (by simpa [runAllocs, hstep] using hx) hflag
      refine ⟨q, hq1, hq2, fun hmem => hq3 ?_⟩
      have := allocStep_used_mono F s r q hmem
      rwa [hstep] at this

theorem runAllocs_nodup {F : PinFamily} (hinj : pinStrInjOn F) :
    ∀ {rs : List AllocReq} {s : AllocState},
      (∀ x ∈ (runAllocs F rs s).1, x.2 = false) →
      ((runAllocs F rs s).1.map Prod.fst).Nodup := by
  intro rs
  induction rs with
  | nil => intro s _; simp [runAllocs]
  | cons r rs ih =>
    intro s hall
    rcases hstep : allocStep F s r with ⟨⟨out, flag⟩, s'⟩
    have hflag : flag = false := by
      have := hall (out, flag) (by simp [runAllocs, hstep])
      simpa using this
    subst hflag
    obtain ⟨q, hqpool, hqfresh, hqout, hqused⟩ := allocStep_false hstep
    have hall' : ∀ x ∈ (runAllocs F rs s').1, x.2 = false := by
      intro x hx
      exact hall x (by simp [runAllocs, hstep, hx])
    have hrest := ih hall'
    simp only [runAllocs, hstep, List.map_cons, List.nodup_cons]
    refine ⟨?_, hrest⟩
    intro hmem
    obtain ⟨y, hy, hy1⟩ := List.mem_map.mp hmem
    obtain ⟨q', hq'pool, hq'str, hq'fresh⟩ := runAllocs_mem hy (hall' y hy)
    have : q' = q := hinj q' hq'pool q hqpool (by rw [hq'str, hy1, hqout])
    subst this
    exact hq'fresh (by simp [hqused])

/-- The result sequence of repeated `get_ground` calls. -/
def groundRun (F : PinFamily) : Nat → AllocState → List Str
  | 0, _ => []
  | n + 1, s =>
    let g := getGround F s
    g.1 :: groundRun F n g.2

/-- The pin returned by the i-th `get_ground` call (0-based) on a fresh
    allocator instance. -/
def nthGroundResult (F : PinFamily) (i : Nat) : Str :=
  (groundRun F (i + 1) initAllocState).getD i []

theorem groundRun_getD {F : PinFamily} :
    ∀ {n : Nat} (s : AllocState) {j : Nat}, j < n →
      (groundRun F n s).getD j [] =
        F.groundPins.getD ((s.groundPinIdx + j) % F.groundPins.length) [] := by
  intro n
  induction n with
  | zero => intro s j hj; omega
  | succ m ih =>
    intro s j hj
    cases j with
    | zero => simp [groundRun, getGround]
    | succ j' =>
      have h2 := ih { s with groundPinIdx := s.groundPinIdx + 1 } (by omega : j' < m)
      simp only [groundRun, getGround, List.getD_cons_succ]
      rw [h2]
      have h3 : ({ s with groundPinIdx := s.groundPinIdx + 1 } : AllocState).groundPinIdx
          = s.groundPinIdx + 1 := rfl
      rw [h3]
      congr 2
      omega

/-- The exhaustion condition of the digital pool at state `s` (the while
    loop finds no unused pin from the cursor on). -/
abbrev digitalExhausted (F : PinFamily) (s : AllocState) : Prop :=
  nextFromPool F.digitalPins s.usedPins s.digitalPinIdx = none

/-- The exhaustion condition of the analog pool at state `s`. -/
abbrev analogExhausted (F : PinFamily) (s : AllocState) : Prop :=
  nextFromPool F.analogPins s.usedPins s.analogPinIdx = none

/-- The exhaustion condition of the PWM pool at state `s`. -/
abbrev pwmExhausted (F : PinFamily) (s : AllocState) : Prop :=
  firstUnused F.pwmPins s.usedPins = none

/-! ## Claims C1, C4, C5, C6 -/

/-- Claim C1: for every parts list with no recognizable microcontroller
    family part, `generate_with_patterns` returns the explicit
    `{"error": "No MCU found"}` document (and, being a total function of
    the embedding, raises nothing). -/
theorem c1_no_mcu_error (parts : List Part)
    (h : ∀ p ∈ parts, mcuMatchB p.type = false) :
    generateWithPatterns parts = GenResult.error (chars "No MCU found") := by
  have hf : parts.find? (fun p => mcuMatchB p.type) = none := by
    rw [List.find?_eq_none]
    intro p hp
    simp [h p hp]
  simp [generateWithPatterns, hf]

/-- Witness for C1 at a concrete MCU-free input. -/
theorem c1_no_mcu_error_witness :
    generateWithPatterns [{ type := chars "wokwi-led", id := chars "led1" }] =
      GenResult.error (chars "No MCU found") :=
  c1_no_mcu_error _ (by decide)

/-- Claim C4: within one synthesis call, as long as no call of
    `get_next_digital`/`get_next_analog`/`get_next_pwm` has hit pool
    exhaustion (fallback), the dispensed pin strings are pairwise
    distinct, for every concrete allocator family. -/
theorem c4_allocator_pins_distinct (F : PinFamily)
    (hF : F = ArduinoUnoPinAllocator ∨ F = ArduinoMegaPinAllocator ∨
          F = ESP32PinAllocator ∨ F = ArduinoNanoPinAllocator)
    (reqs : List AllocReq)
    (hnf : ∀ x ∈ (runAllocs F reqs initAllocState).1, x.2 = false) :
    ((runAllocs F reqs initAllocState).1.map Prod.fst).Nodup := by
  have hinj : pinStrInjOn F := by
    rcases hF with rfl | rfl | rfl | rfl
    · decide
    · decide
    · decide
    · decide
  exact runAllocs_nodup hinj hnf

/-- Witness for C4: one digital, one analog and one PWM allocation on a
    fresh Uno allocator all succeed and are pairwise distinct. -/
theorem c4_allocator_pins_distinct_witness :
    ((runAllocs ArduinoUnoPinAllocator [AllocReq.digital, AllocReq.analog, AllocReq.pwm]
        initAllocState).1.map Prod.fst).Nodup :=
  c4_allocator_pins_distinct ArduinoUnoPinAllocator (Or.inl rfl) _ (by decide)

/-- Claim C5: `get_ground` is a round-robin over the family's ground
    pins: the i-th and (i+k)-th calls (k = number of ground pins) return
    the same pin; on an Arduino Uno the 4th ground allocation repeats the
    1st, namely `GND.1`. -/
theorem c5_ground_round_robin (F : PinFamily) (i : Nat) :
    nthGroundResult F (i + F.groundPins.length) = nthGroundResult F i ∧
    nthGroundResult ArduinoUnoPinAllocator 3 = nthGroundResult ArduinoUnoPinAllocator 0 ∧
    nthGroundResult ArduinoUnoPinAllocator 3 = chars "GND.1" := by
  refine ⟨?_, by decide, by decide⟩
  unfold nthGroundResult
  rw [groundRun_getD _ (Nat.lt_succ_self _), groundRun_getD _ (Nat.lt_succ_self _)]
  simp [initAllocState, Nat.add_mod_right]

/-- Claim C6: the three general-purpose getters are total (the embedding
    is a function) and, at pool exhaustion, return the fixed
    family-specific fallback pins; for the Uno these are "2", "A0", "3". -/
theorem c6_exhaustion_fallback (F : PinFamily) (s : AllocState)
    (hd : digitalExhausted F s) (ha : analogExhausted F s) (hp : pwmExhausted F s) :
    (getNextDigital F s).1 = F.digitalFallback ∧
    (getNextAnalog F s).1 = F.analogFallback ∧
    (getNextPwm F s).1 = F.pwmFallback ∧
    ArduinoUnoPinAllocator.digitalFallback = chars "2" ∧
    ArduinoUnoPinAllocator.analogFallback = chars "A0" ∧
    ArduinoUnoPinAllocator.pwmFallback = chars "3" := by
  refine ⟨?_, ?_, ?_, by decide, by decide, by decide⟩
  · simp [getNextDigital, hd]
  · simp [getNextAnalog, ha]
  · simp [getNextPwm, hp]

/-- A fully exhausted Uno allocator state (every pool pin used). -/
def exhaustedUnoState : AllocState :=
  { usedPins := familyPool ArduinoUnoPinAllocator }

/-! ## Facts about the safety-component inserter -/

/-- The source substring occurs in the connection repr. -/
theorem subB_src_connRepr (c : Conn) : subB c.src (connRepr c) = true := by
  apply subB_of_parts (chars "[" ++ [sq]) c.src
    ([sq] ++ chars ", " ++ quoteStr c.tgt ++ chars ", " ++ quoteStr c.color ++
     chars ", " ++ listRepr c.path ++ chars "]")
  simp [connRepr, quoteStr, List.append_assoc]

/-- The target substring occurs in the connection repr. -/
theorem subB_tgt_connRepr (c : Conn) : subB c.tgt (connRepr c) = true := by
  apply subB_of_parts (chars "[" ++ quoteStr c.src ++ chars ", " ++ [sq]) c.tgt
    ([sq] ++ chars ", " ++ quoteStr c.color ++ chars ", " ++ listRepr c.path ++ chars "]")
  simp [connRepr, quoteStr, List.append_assoc]

/-- A part id referenced by an endpoint of a connection occurs, as a
    substring, in the Python repr of that connection. -/
theorem subB_id_of_endpoint {pid pin : Str} {c : Conn}
    (h : c.src = pinRef pid pin ∨ c.tgt = pinRef pid pin) :
    subB pid (connRepr c) = true := by
  have hid : ∀ e : Str, e = pinRef pid pin → subB pid e = true := by
    intro e he
    apply subB_of_parts [] pid (chars ":" ++ pin)
    simp [he, pinRef, List.append_assoc]
  rcases h with h | h
  · exact subB_trans (hid _ h) (subB_src_connRepr c)
  · exact subB_trans (hid _ h) (subB_tgt_connRepr c)

/-- The resistor parts appended by the insertion loop, starting at
    counter value `k`. -/
def resistorsFrom (k : Nat) : List NeededItem → List Part
  | [] => []
  | (comp, v) :: rest => mkResistorPart k comp v :: resistorsFrom (k + 1) rest

theorem addAutoLoop_parts (m : Bool) :
    ∀ (l : List NeededItem) (k : Nat) (ps : List Part) (cs : List Conn),
      (addAutoLoop m k l ps cs).1 = ps ++ resistorsFrom k l := by
  intro l
  induction l with
  | nil => intro k ps cs; simp [addAutoLoop, resistorsFrom]
  | cons item rest ih =>
    intro k ps cs
    obtain ⟨comp, v⟩ := item
    simp [addAutoLoop, resistorsFrom, ih]

/-- The rewrite-trigger condition of the insertion loop: the connection
    targets the component and ends at the protected pin. -/
def rewriteTriggerB (comp : Part) (c : Conn) : Bool :=
  preB (comp.id ++ chars ":") c.tgt &&
  ((subB (chars "led") (lowerStr comp.type) && sufB (chars ":A") c.tgt) ||
   (subB (chars "piezo") (lowerStr comp.type) && sufB (chars ":2") c.tgt))

/-- A connection aimed at no protected pin of any component needing a
    resistor. -/
def untouchedB (parts : List Part) (conns : List Conn) (c : Conn) : Bool :=
  !((componentsNeedingResistors parts conns).any fun item => rewriteTriggerB item.1 c)

theorem rewriteConn_of_not_trigger {comp : Part} {c : Conn} (rid : Str)
    (h : rewriteTriggerB comp c = false) : rewriteConn comp rid c = [c] := by
  unfold rewriteTriggerB at h
  unfold rewriteConn
  cases hpre : preB (comp.id ++ chars ":") c.tgt with
  | false => simp [hpre]
  | true =>
    rw [hpre] at h
    simp only [Bool.true_and, Bool.or_eq_false_iff] at h
    simp [hpre, h.1, h.2]

/-- A target whose last two characters are neither `:A` nor `:2` can
    never be rewritten by the inserter. -/
abbrev survivorTgt (t : Str) : Prop :=
  sufB (chars ":A") t = false ∧ sufB (chars ":2") t = false

theorem rewriteConn_of_survivor {comp : Part} {c : Conn} (rid : Str)
    (h : survivorTgt c.tgt) : rewriteConn comp rid c = [c] := by
  apply rewriteConn_of_not_trigger
  unfold rewriteTriggerB
  rw [h.1, h.2]
  simp

theorem sublist_rewritePass {s cs : List Conn} (comp : Part) (rid : Str)
    (h : List.Sublist s cs) (hkeep : ∀ c ∈ s, rewriteConn comp rid c = [c]) :
    List.Sublist s (rewritePass comp rid cs) := by
  induction h with
  | slnil => simp [rewritePass]
  | cons c _ ih =>
    exact (ih hkeep).trans (List.sublist_append_right _ _)
  | cons₂ c _ ih =>
    rename_i s' cs' _
    show List.Sublist (c :: s') (rewriteConn comp rid c ++ rewritePass comp rid cs')
    rw [hkeep c (List.mem_cons_self _ _)]
    exact List.Sublist.cons₂ c (ih fun x hx => hkeep x (List.mem_cons_of_mem _ hx))

theorem addAutoLoop_sublist (m : Bool) :
    ∀ (l : List NeededItem) (k : Nat) (ps : List Part) (cs : List Conn) (s : List Conn),
      List.Sublist s cs → (∀ item ∈ l, ∀ c ∈ s, ∀ rid, rewriteConn item.1 rid c = [c]) →
      List.Sublist s (addAutoLoop m k l ps cs).2 := by
  intro l
  induction l with
  | nil => intro k ps cs s hs _; simpa [addAutoLoop] using hs
  | cons item rest ih =>
    intro k ps cs s hs hkeep
    obtain ⟨comp, v⟩ := item
    simp only [addAutoLoop]
    cases m with
    | false =>
      exact ih _ _ _ s hs fun it hit => hkeep it (List.mem_cons_of_mem _ hit)
    | true =>
      apply ih _ _ _ s
      · exact sublist_rewritePass comp _ hs
          (fun c hc => hkeep (comp, v) (List.mem_cons_self _ _) c hc _)
      · intro it hit
        exact hkeep it (List.mem_cons_of_mem _ hit)

/-! ## Claims C2, C3, C8, C9 -/

/-- The C2 input: one Arduino Uno and one LED, no positions. -/
def c2Parts : List Part :=
  [{ type := chars "wokwi-arduino-uno", id := chars "mcu" },
   { type := chars "wokwi-led", id := chars "led1" }]

/-- Counterexample to claim C2 as stated: on the Uno-plus-LED input the
    generated document has 3 connections, not 2 (the ground wire to the
    LED cathode is kept alongside the two resistor hops). -/
theorem c2_counterexample :
    (resultConns (generateWithPatterns c2Parts)).length ≠ 2 := by decide

/-- Claim C2 (amended): on the Uno-plus-LED input the output has exactly
    3 parts (the two originals plus the auto-inserted 220 ohm resistor
    R1) and exactly 3 connections: MCU pin 2 to R1 pin 1, R1 pin 2 to the
    LED anode (replacing the direct anode wire), and the untouched ground
    wire from GND.1 to the LED cathode. -/
theorem c2_led_resistor_insertion :
    resultParts (generateWithPatterns c2Parts) =
      c2Parts ++ [{ type := chars "wokwi-resistor", id := chars "R1", top := 30,
                    left := -50, attrs := [(chars "value", chars "220")] }] ∧
    resultConns (generateWithPatterns c2Parts) =
      [⟨chars "mcu:2", chars "R1:1", chars "red",
        [chars "v-35", chars "h0", chars "*", chars "h0", chars "v0"]⟩,
       ⟨chars "R1:2", chars "led1:A", chars "red",
        [chars "h10", chars "*", chars "h-5"]⟩,
       ⟨chars "mcu:GND.1", chars "led1:C", chars "black", [chars "*"]⟩] := by
  constructor
  · decide
  · decide

/-- Claim C3: an LED that already has a resistor part wired to it (some
    connection references both ids) is skipped by the inserter: it is not
    among the components needing resistors, and the parts appended by
    `add_automatic_resistors` are exactly those synthesized for the
    needed components. -/
theorem c3_no_second_resistor (parts : List Part) (conns : List Conn) (led : Part)
    (hled : subB (chars "led") (lowerStr led.type) = true)
    (hprot : ∃ r ∈ parts, subB (chars "resistor") (lowerStr r.type) = true ∧
      ∃ c ∈ conns,
        (∃ pinr, c.src = pinRef r.id pinr ∨ c.tgt = pinRef r.id pinr) ∧
        (∃ pinl, c.src = pinRef led.id pinl ∨ c.tgt = pinRef led.id pinl)) :
    led ∉ (componentsNeedingResistors parts conns).map Prod.fst ∧
    (addAutomaticResistors parts conns).1 =
      parts ++ resistorsFrom 1 (componentsNeedingResistors parts conns) := by
  have hres : hasResistorB led.id parts conns = true := by
    obtain ⟨r, hrmem, hrtype, c, hcmem, ⟨pinr, hr⟩, ⟨pinl, hl⟩⟩ := hprot
    apply List.any_eq_true.mpr
    refine ⟨r, hrmem, ?_⟩
    rw [Bool.and_eq_true]
    refine ⟨hrtype, List.any_eq_true.mpr ⟨c, hcmem, ?_⟩⟩
    rw [Bool.and_eq_true]
    exact ⟨subB_id_of_endpoint hr, subB_id_of_endpoint hl⟩
  constructor
  · intro hmem
    obtain ⟨item, hitem, hfst⟩ := List.mem_map.mp hmem
    obtain ⟨part, _, hsome⟩ := List.mem_filterMap.mp hitem
    by_cases h1 : subB (chars "led") (lowerStr part.type) = true
    · rw [if_pos h1] at hsome
      by_cases h2 : hasResistorB part.id parts conns = true
      · rw [if_pos h2] at hsome
        exact Option.noConfusion hsome
      · rw [if_neg h2] at hsome
        have : part = led := by
          have := Option.some.inj hsome
          rw [← this] at hfst
          exact hfst
        subst this
        exact h2 hres
    · rw [if_neg h1] at hsome
      by_cases h3 : subB (chars "piezo") (lowerStr part.type) = true
      · rw [if_pos h3] at hsome
        by_cases h2 : hasResistorB part.id parts conns = true
        · rw [if_pos h2] at hsome
          exact Option.noConfusion hsome
        · rw [if_neg h2] at hsome
          have : part = led := by
            have := Option.some.inj hsome
            rw [← this] at hfst
            exact hfst
          subst this
          exact h1 hled
      · rw [if_neg h3] at hsome
        exact Option.noConfusion hsome
  · unfold addAutomaticResistors
    exact addAutoLoop_parts _ _ _ _ _

/-- The C3 witness input: an LED already wired through an explicit
    resistor part. -/
def c3Led : Part := { type := chars "wokwi-led", id := chars "led1" }

/-- An explicitly provided protection resistor for the C3 witness. -/
def c3Res : Part := { type := chars "wokwi-resistor", id := chars "res1" }

/-- The parts list of the C3 witness. -/
def c3Parts : List Part :=
  [{ type := chars "wokwi-arduino-uno", id := chars "mcu" }, c3Led, c3Res]

/-- The connection list of the C3 witness: the resistor drives the LED
    anode. -/
def c3Conns : List Conn :=
  [⟨chars "res1:2", chars "led1:A", chars "red", []⟩]

/-- Witness for C3 at the concrete protected-LED input. -/
theorem c3_no_second_resistor_witness :
    c3Led ∉ (componentsNeedingResistors c3Parts c3Conns).map Prod.fst ∧
    (addAutomaticResistors c3Parts c3Conns).1 =
      c3Parts ++ resistorsFrom 1 (componentsNeedingResistors c3Parts c3Conns) :=
  c3_no_second_resistor c3Parts c3Conns c3Led (by decide)
    ⟨c3Res, by decide, by decide,
     ⟨chars "res1:2", chars "led1:A", chars "red", []⟩, by decide,
     ⟨chars "2", Or.inl (by decide)⟩, ⟨chars "A", Or.inr (by decide)⟩⟩

/-- Claim C8: for a fixed parts list (and the oracle absent, which is the
    pattern path modelled here), two invocations of the synthesis produce
    identical connection and part lists; the allocator is constructed
    inside the call, so the embedding is a pure function and repeated
    calls cannot drift. -/
theorem c8_determinism (parts : List Part) :
    resultConns (generateWithPatterns parts) = resultConns (generateWithPatterns parts) ∧
    resultParts (generateWithPatterns parts) = resultParts (generateWithPatterns parts) :=
  ⟨rfl, rfl⟩

/-- Claim C9: the inserter leaves every connection that does not target a
    protected pin (an unprotected LED's anode `:A` or an unprotected
    piezo's signal `:2`) unchanged in content and relative order: those
    connections form a sublist of the output connection list. -/
theorem c9_frame_preservation (parts : List Part) (conns : List Conn) :
    List.Sublist (conns.filter (untouchedB parts conns))
      (addAutomaticResistors parts conns).2 := by
  unfold addAutomaticResistors
  apply addAutoLoop_sublist
  · exact List.filter_sublist conns
  · intro item hitem c hc rid
    apply rewriteConn_of_not_trigger
    have hcf : untouchedB parts conns c = true := List.of_mem_filter hc
    unfold untouchedB at hcf
    rw [Bool.not_eq_true'] at hcf
    by_contra hne
    have htrig : rewriteTriggerB item.1 c = true := by
      cases htr : rewriteTriggerB item.1 c with
      | false => exact absurd htr hne
      | true => rfl
    have : (componentsNeedingResistors parts conns).any
        (fun it => rewriteTriggerB it.1 c) = true :=
      List.any_eq_true.mpr ⟨item, hitem, htrig⟩
    rw [hcf] at this
    exact Bool.noConfusion this

/-! ## Coverage machinery: which connections each part receives -/

/-- The connection targets the part: its target pin reference starts with
    the part id and a colon. -/
abbrev targetsPart (p : Part) (c : Conn) : Prop :=
  preB (p.id ++ chars ":") c.tgt = true

/-- The connection is driven from an MCU ground pin. -/
abbrev groundSrc (mcu : Part) (F : PinFamily) (c : Conn) : Prop :=
  ∃ g ∈ F.groundPins, c.src = pinRef mcu.id g

/-- The family's ground-pin list is nonempty and its entries are long
    enough and never end in `:2` (they end `.1`, `.2`, ...). -/
abbrev groundPinsGood (F : PinFamily) : Prop :=
  0 < F.groundPins.length ∧
  ∀ g ∈ F.groundPins, 2 ≤ g.length ∧ lastTwo g ≠ chars ":2"

/-- No pin string obtainable from the general getters or the fixed SDA
    pin is a ground-pin name. -/
abbrev signalAvoidsGround (F : PinFamily) : Prop :=
  F.digitalFallback ∉ F.groundPins ∧ F.analogFallback ∉ F.groundPins ∧
  F.pwmFallback ∉ F.groundPins ∧ F.sda ∉ F.groundPins ∧
  (∀ pin ∈ F.digitalPins, pinStr pin ∉ F.groundPins) ∧
  (∀ pin ∈ F.analogPins, pinStr pin ∉ F.groundPins) ∧
  (∀ pin ∈ F.pwmPins, pinStr pin ∉ F.groundPins)

theorem targetsPart_of_tgt {p : Part} {c : Conn} {pin : Str}
    (h : c.tgt = pinRef p.id pin) : targetsPart p c := by
  show preB (p.id ++ chars ":") c.tgt = true
  rw [h]
  exact preB_append _ _

theorem getD_mem_of_lt : ∀ (l : List Str) (i : Nat), i < l.length → l.getD i [] ∈ l := by
  intro l
  induction l with
  | nil => intro i h; simp at h
  | cons x xs ih =>
    intro i h
    cases i with
    | zero => simp
    | succ j =>
      simp only [List.getD_cons_succ]
      exact List.mem_cons_of_mem _ (ih j (by simpa using h))

theorem getGround_mem {F : PinFamily} (s : AllocState) (hk : 0 < F.groundPins.length) :
    (getGround F s).1 ∈ F.groundPins := by
  unfold getGround
  exact getD_mem_of_lt _ _ (Nat.mod_lt _ hk)

theorem getNextDigital_not_ground {F : PinFamily} {s : AllocState}
    (hdf : F.digitalFallback ∉ F.groundPins)
    (hdig : ∀ pin ∈ F.digitalPins, pinStr pin ∉ F.groundPins) :
    (getNextDigital F s).1 ∉ F.groundPins := by
  cases hnp : nextFromPool F.digitalPins s.usedPins s.digitalPinIdx with
  | none => simpa [getNextDigital, hnp] using hdf
  | some v =>
    obtain ⟨pin, j⟩ := v
    have hm := nextFromPool_some hnp
    simpa [getNextDigital, hnp] using hdig pin hm.1

theorem getNextAnalog_not_ground {F : PinFamily} {s : AllocState}
    (haf : F.analogFallback ∉ F.groundPins)
    (hana : ∀ pin ∈ F.analogPins, pinStr pin ∉ F.groundPins) :
    (getNextAnalog F s).1 ∉ F.groundPins := by
  cases hnp : nextFromPool F.analogPins s.usedPins s.analogPinIdx with
  | none => simpa [getNextAnalog, hnp] using haf
  | some v =>
    obtain ⟨pin, j⟩ := v
    have hm := nextFromPool_some hnp
    simpa [getNextAnalog, hnp] using hana pin hm.1

theorem getNextPwm_not_ground {F : PinFamily} {s : AllocState}
    (hpf : F.pwmFallback ∉ F.groundPins)
    (hpwm : ∀ pin ∈ F.pwmPins, pinStr pin ∉ F.groundPins) :
    (getNextPwm F s).1 ∉ F.groundPins := by
  cases hnp : firstUnused F.pwmPins s.usedPins with
  | none => simpa [getNextPwm, hnp] using hpf
  | some pin =>
    have hm := firstUnused_some hnp
    simpa [getNextPwm, hnp] using hpwm pin hm.1

theorem not_groundSrc_of_pin {mcu : Part} {F : PinFamily} {x : Str} {c : Conn}
    (hsrc : c.src = pinRef mcu.id x) (hx : x ∉ F.groundPins) :
    ¬ groundSrc mcu F c := by
  rintro ⟨g, hg, he⟩
  rw [hsrc] at he
  have : x = g := append_cancel_left_chars (mcu.id ++ chars ":") he
  exact hx (this ▸ hg)

theorem not_groundSrc_of_r2 {mcu : Part} {F : PinFamily} {rid : Str} {c : Conn}
    (hsrc : c.src = rid ++ chars ":2")
    (hg2 : ∀ g ∈ F.groundPins, 2 ≤ g.length ∧ lastTwo g ≠ chars ":2") :
    ¬ groundSrc mcu F c := by
  rintro ⟨g, hg, he⟩
  obtain ⟨hlen, hne⟩ := hg2 g hg
  rw [hsrc] at he
  have h1 : lastTwo (rid ++ chars ":2") = chars ":2" := by
    rw [lastTwo_append rid (by decide)]
    decide
  have h2 : lastTwo (pinRef mcu.id g) = lastTwo g :=
    lastTwo_append (mcu.id ++ chars ":") hlen
  rw [he, h2] at h1
  exact hne h1

theorem survivorTgt_of_lastTwo {t : Str} (hlen : 2 ≤ t.length)
    (hA : lastTwo t ≠ chars ":A") (h2 : lastTwo t ≠ chars ":2") : survivorTgt t :=
  ⟨sufB_false_of_lastTwo (by decide) hlen hA,
   sufB_false_of_lastTwo (by decide) hlen h2⟩

theorem survivorTgt_pinRef (pid pin : Str) (hpin : 1 ≤ pin.length)
    (hA : lastTwo (chars ":" ++ pin) ≠ chars ":A")
    (h2 : lastTwo (chars ":" ++ pin) ≠ chars ":2") :
    survivorTgt (pinRef pid pin) := by
  have heq : pinRef pid pin = pid ++ (chars ":" ++ pin) := by
    simp [pinRef]
  rw [heq]
  have hc1 : (chars ":").length = 1 := by decide
  have hlen2 : 2 ≤ (chars ":" ++ pin).length := by
    simp only [List.length_append, hc1]
    omega
  apply survivorTgt_of_lastTwo
  · simp only [List.length_append, hc1]
    omega
  · rw [lastTwo_append _ hlen2]
    exact hA
  · rw [lastTwo_append _ hlen2]
    exact h2

theorem rewriteConn_tgt (comp : Part) (rid : Str) (c : Conn) :
    ∃ c' ∈ rewriteConn comp rid c, c'.tgt = c.tgt ∧
      (c' = c ∨ c'.src = rid ++ chars ":2") := by
  unfold rewriteConn
  split
  · split
    · refine ⟨⟨rid ++ chars ":2", c.tgt, c.color, [chars "h10", star, chars "h-5"]⟩, ?_, rfl, Or.inr rfl⟩
      simp
    · split
      · refine ⟨⟨rid ++ chars ":2", c.tgt, c.color, [chars "h10", star, chars "h-5"]⟩, ?_, rfl, Or.inr rfl⟩
        simp
      · exact ⟨c, by simp, rfl, Or.inl rfl⟩
  · exact ⟨c, by simp, rfl, Or.inl rfl⟩

theorem rewritePass_target {p comp : Part} {rid : Str} :
    ∀ {cs : List Conn}, (∃ c ∈ cs, targetsPart p c) →
      ∃ c ∈ rewritePass comp rid cs, targetsPart p c := by
  intro cs
  induction cs with
  | nil => rintro ⟨c, hc, _⟩; simp at hc
  | cons c0 cs ih =>
    rintro ⟨c, hc, hct⟩
    rcases List.mem_cons.mp hc with rfl | hc
    · obtain ⟨c', hc', htgt, _⟩ := rewriteConn_tgt comp rid c
      refine ⟨c', List.mem_append_left _ hc', ?_⟩
      show preB (p.id ++ chars ":") c'.tgt = true
      rw [htgt]
      exact hct
    · obtain ⟨c', hc', hp'⟩ := ih ⟨c, hc, hct⟩
      exact ⟨c', List.mem_append_right _ hc', hp'⟩

theorem rewritePass_signal {p mcu : Part} {F : PinFamily} {comp : Part} {rid : Str}
    (hg2 : ∀ g ∈ F.groundPins, 2 ≤ g.length ∧ lastTwo g ≠ chars ":2") :
    ∀ {cs : List Conn}, (∃ c ∈ cs, targetsPart p c ∧ ¬ groundSrc mcu F c) →
      ∃ c ∈ rewritePass comp rid cs, targetsPart p c ∧ ¬ groundSrc mcu F c := by
  intro cs
  induction cs with
  | nil => rintro ⟨c, hc, _⟩; simp at hc
  | cons c0 cs ih =>
    rintro ⟨c, hc, hct, hcg⟩
    rcases List.mem_cons.mp hc with rfl | hc
    · obtain ⟨c', hc', htgt, hsrc⟩ := rewriteConn_tgt comp rid c
      refine ⟨c', List.mem_append_left _ hc', ?_, ?_⟩
      · show preB (p.id ++ chars ":") c'.tgt = true
        rw [htgt]
        exact hct
      · rcases hsrc with rfl | hsrc
        · exact hcg
        · exact not_groundSrc_of_r2 hsrc hg2
    · obtain ⟨c', hc', hp'⟩ := ih ⟨c, hc, hct, hcg⟩
      exact ⟨c', List.mem_append_right _ hc', hp'⟩

theorem rewritePass_mem_survivor {comp : Part} {rid : Str} {c : Conn}
    (hs : survivorTgt c.tgt) :
    ∀ {cs : List Conn}, c ∈ cs → c ∈ rewritePass comp rid cs := by
  intro cs
  induction cs with
  | nil => intro hc; simp at hc
  | cons c0 cs ih =>
    intro hc
    rcases List.mem_cons.mp hc with rfl | hc
    · rw [show rewritePass comp rid (c :: cs) = rewriteConn comp rid c ++ rewritePass comp rid cs from rfl,
        rewriteConn_of_survivor rid hs]
      exact List.mem_append_left _ (List.mem_cons_self _ _)
    · exact List.mem_append_right _ (ih hc)

theorem addAutoLoop_target (m : Bool) {p : Part} :
    ∀ (l : List NeededItem) (k : Nat) (ps : List Part) (cs : List Conn),
      (∃ c ∈ cs, targetsPart p c) →
      ∃ c ∈ (addAutoLoop m k l ps cs).2, targetsPart p c := by
  intro l
  induction l with
  | nil => intro k ps cs h; simpa [addAutoLoop] using h
  | cons item rest ih =>
    intro k ps cs h
    obtain ⟨comp, v⟩ := item
    simp only [addAutoLoop]
    cases m with
    | false => exact ih _ _ _ h
    | true => exact ih _ _ _ (rewritePass_target h)

theorem addAutoLoop_signal (m : Bool) {p mcu : Part} {F : PinFamily}
    (hg2 : ∀ g ∈ F.groundPins, 2 ≤ g.length ∧ lastTwo g ≠ chars ":2") :
    ∀ (l : List NeededItem) (k : Nat) (ps : List Part) (cs : List Conn),
      (∃ c ∈ cs, targetsPart p c ∧ ¬ groundSrc mcu F c) →
      ∃ c ∈ (addAutoLoop m k l ps cs).2, targetsPart p c ∧ ¬ groundSrc mcu F c := by
  intro l
  induction l with
  | nil => intro k ps cs h; simpa [addAutoLoop] using h
  | cons item rest ih =>
    intro k ps cs h
    obtain ⟨comp, v⟩ := item
    simp only [addAutoLoop]
    cases m with
    | false => exact ih _ _ _ h
    | true => exact ih _ _ _ (rewritePass_signal hg2 h)

theorem addAutoLoop_mem_survivor (m : Bool) {c : Conn} (hs : survivorTgt c.tgt) :
    ∀ (l : List NeededItem) (k : Nat) (ps : List Part) (cs : List Conn),
      c ∈ cs → c ∈ (addAutoLoop m k l ps cs).2 := by
  intro l
  induction l with
  | nil => intro k ps cs h; simpa [addAutoLoop] using h
  | cons item rest ih =>
    intro k ps cs h
    obtain ⟨comp, v⟩ := item
    simp only [addAutoLoop]
    cases m with
    | false => exact ih _ _ _ h
    | true => exact ih _ _ _ (rewritePass_mem_survivor hs h)

theorem wireAll_subset {F : PinFamily} {mcu p : Part} :
    ∀ {parts : List Part} {s : AllocState}, p ∈ parts → p ≠ mcu →
      ∃ s0, ∀ c ∈ (wireComponent F mcu p s0).1, c ∈ (wireAll F mcu parts s).1 := by
  intro parts
  induction parts with
  | nil => intro s h; simp at h
  | cons q ps ih =>
    intro s hp hne
    rcases List.mem_cons.mp hp with rfl | hp
    · refine ⟨s, fun c hc => ?_⟩
      simp only [wireAll, if_neg hne]
      exact List.mem_append_left _ hc
    · by_cases hq : q = mcu
      · obtain ⟨s0, hsub⟩ := ih (s := s) hp hne
        refine ⟨s0, fun c hc => ?_⟩
        simp only [wireAll, if_pos hq]
        exact hsub c hc
      · obtain ⟨s0, hsub⟩ := ih (s := (wireComponent F mcu q s).2) hp hne
        refine ⟨s0, fun c hc => ?_⟩
        simp only [wireAll, if_neg hq]
        exact List.mem_append_right _ (hsub c hc)

theorem getPinAllocator_cases (t : Str) :
    getPinAllocator t = ESP32PinAllocator ∨
    getPinAllocator t = ArduinoMegaPinAllocator ∨
    getPinAllocator t = ArduinoUnoPinAllocator := by
  unfold getPinAllocator
  split
  · exact Or.inl rfl
  · split
    · exact Or.inr (Or.inl rfl)
    · split
      · exact Or.inr (Or.inr rfl)
      · split
        · exact Or.inr (Or.inr rfl)
        · exact Or.inr (Or.inr rfl)

theorem groundPinsGood_all :
    groundPinsGood ESP32PinAllocator ∧ groundPinsGood ArduinoMegaPinAllocator ∧
    groundPinsGood ArduinoUnoPinAllocator := by
  refine ⟨⟨by decide, by decide⟩, ⟨by decide, by decide⟩, ⟨by decide, by decide⟩⟩

theorem signalAvoidsGround_all :
    signalAvoidsGround ESP32PinAllocator ∧ signalAvoidsGround ArduinoMegaPinAllocator ∧
    signalAvoidsGround ArduinoUnoPinAllocator := by
  refine ⟨by decide, by decide, by decide⟩

/-- The per-part wiring facts, by case analysis over the dispatch: every
    emitted connection targets the part; the emission is nonempty; and,
    except for the standalone-resistor rule, it contains a ground-sourced
    wire that the inserter can never rewrite, plus a wire from a
    non-ground MCU pin. -/
theorem wireComponent_facts (F : PinFamily) (mcu p : Part) (s : AllocState)
    (hk : 0 < F.groundPins.length) (hsig : signalAvoidsGround F) :
    (wireComponent F mcu p s).1 ≠ [] ∧
    (∀ c ∈ (wireComponent F mcu p s).1, targetsPart p c) ∧
    (categorize p.type ≠ PartCategory.resistor →
      (∃ c ∈ (wireComponent F mcu p s).1,
        targetsPart p c ∧ groundSrc mcu F c ∧ survivorTgt c.tgt) ∧
      (∃ c ∈ (wireComponent F mcu p s).1,
        targetsPart p c ∧ ¬ groundSrc mcu F c)) := by
  obtain ⟨hdf, haf, hpf, hsda, hdig, hana, hpwm⟩ := hsig
  cases hcat : categorize p.type with
  | oled =>
    simp only [wireComponent, hcat]
    refine ⟨by simp, ?_, fun _ => ⟨?_, ?_⟩⟩
    · intro c hc
      simp only [List.mem_cons, List.not_mem_nil, or_false] at hc
      rcases hc with rfl | rfl | rfl | rfl <;> exact targetsPart_of_tgt rfl
    · exact ⟨_, List.mem_cons_self _ _, targetsPart_of_tgt rfl,
        ⟨_, getGround_mem _ hk, rfl⟩,
        survivorTgt_pinRef _ _ (by decide) (by decide) (by decide)⟩
    · exact ⟨_, List.mem_cons_of_mem _ (List.mem_cons_of_mem _ (List.mem_cons_self _ _)),
        targetsPart_of_tgt rfl, not_groundSrc_of_pin rfl hsda⟩
  | tft =>
    simp only [wireComponent, hcat]
    refine ⟨by simp, ?_, fun _ => ⟨?_, ?_⟩⟩
    · intro c hc
      simp only [List.mem_cons, List.not_mem_nil, or_false] at hc
      rcases hc with rfl | rfl | rfl | rfl | rfl | rfl | rfl | rfl <;>
        exact targetsPart_of_tgt rfl
    · exact ⟨_, List.mem_cons_self _ _, targetsPart_of_tgt rfl,
        ⟨_, getGround_mem _ hk, rfl⟩,
        survivorTgt_pinRef _ _ (by decide) (by decide) (by decide)⟩
    · exact ⟨_, List.mem_cons_of_mem _ (List.mem_cons_of_mem _ (List.mem_cons_self _ _)),
        targetsPart_of_tgt rfl, not_groundSrc_of_pin rfl (getNextDigital_not_ground hdf hdig)⟩
  | sdcard =>
    simp only [wireComponent, hcat]
    refine ⟨by simp, ?_, fun _ => ⟨?_, ?_⟩⟩
    · intro c hc
      simp only [List.mem_cons, List.not_mem_nil, or_false] at hc
      rcases hc with rfl | rfl | rfl | rfl | rfl | rfl <;> exact targetsPart_of_tgt rfl
    · exact ⟨_, List.mem_cons_self _ _, targetsPart_of_tgt rfl,
        ⟨_, getGround_mem _ hk, rfl⟩,
        survivorTgt_pinRef _ _ (by decide) (by decide) (by decide)⟩
    · exact ⟨_, List.mem_cons_of_mem _ (List.mem_cons_of_mem _ (List.mem_cons_self _ _)),
        targetsPart_of_tgt rfl, not_groundSrc_of_pin rfl (getNextDigital_not_ground hdf hdig)⟩
  | button =>
    simp only [wireComponent, hcat]
    refine ⟨by simp, ?_, fun _ => ⟨?_, ?_⟩⟩
    · intro c hc
      simp only [List.mem_cons, List.not_mem_nil, or_false] at hc
      rcases hc with rfl | rfl <;> exact targetsPart_of_tgt rfl
    · exact ⟨_, List.mem_cons_of_mem _ (List.mem_cons_self _ _), targetsPart_of_tgt rfl,
        ⟨_, getGround_mem _ hk, rfl⟩,
        survivorTgt_pinRef _ _ (by decide) (by decide) (by decide)⟩
    · exact ⟨_, List.mem_cons_self _ _,
        targetsPart_of_tgt rfl, not_groundSrc_of_pin rfl (getNextDigital_not_ground hdf hdig)⟩
  | buzzer =>
    simp only [wireComponent, hcat]
    refine ⟨by simp, ?_, fun _ => ⟨?_, ?_⟩⟩
    · intro c hc
      simp only [List.mem_cons, List.not_mem_nil, or_false] at hc
      rcases hc with rfl | rfl <;> exact targetsPart_of_tgt rfl
    · exact ⟨_, List.mem_cons_self _ _, targetsPart_of_tgt rfl,
        ⟨_, getGround_mem _ hk, rfl⟩,
        survivorTgt_pinRef _ _ (by decide) (by decide) (by decide)⟩
    · exact ⟨_, List.mem_cons_of_mem _ (List.mem_cons_self _ _),
        targetsPart_of_tgt rfl, not_groundSrc_of_pin rfl (getNextDigital_not_ground hdf hdig)⟩
  | led =>
    simp only [wireComponent, hcat]
    refine ⟨by simp, ?_, fun _ => ⟨?_, ?_⟩⟩
    · intro c hc
      simp only [List.mem_cons, List.not_mem_nil, or_false] at hc
      rcases hc with rfl | rfl <;> exact targetsPart_of_tgt rfl
    · exact ⟨_, List.mem_cons_of_mem _ (List.mem_cons_self _ _), targetsPart_of_tgt rfl,
        ⟨_, getGround_mem _ hk, rfl⟩,
        survivorTgt_pinRef _ _ (by decide) (by decide) (by decide)⟩
    · exact ⟨_, List.mem_cons_self _ _,
        targetsPart_of_tgt rfl, not_groundSrc_of_pin rfl (getNextDigital_not_ground hdf hdig)⟩
  | resistor =>
    simp only [wireComponent, hcat]
    refine ⟨by simp, ?_, fun hne => absurd rfl hne⟩
    intro c hc
    simp only [List.mem_cons, List.not_mem_nil, or_false] at hc
    rcases hc with rfl | rfl <;> exact targetsPart_of_tgt rfl
  | dht =>
    simp only [wireComponent, hcat]
    refine ⟨by simp, ?_, fun _ => ⟨?_, ?_⟩⟩
    · intro c hc
      simp only [List.mem_cons, List.not_mem_nil, or_false] at hc
      rcases hc with rfl | rfl | rfl <;> exact targetsPart_of_tgt rfl
    · exact ⟨_, List.mem_cons_self _ _, targetsPart_of_tgt rfl,
        ⟨_, getGround_mem _ hk, rfl⟩,
        survivorTgt_pinRef _ _ (by decide) (by decide) (by decide)⟩
    · exact ⟨_, List.mem_cons_of_mem _ (List.mem_cons_of_mem _ (List.mem_cons_self _ _)),
        targetsPart_of_tgt rfl, not_groundSrc_of_pin rfl (getNextDigital_not_ground hdf hdig)⟩
  | servo =>
    simp only [wireComponent, hcat]
    refine ⟨by simp, ?_, fun _ => ⟨?_, ?_⟩⟩
    · intro c hc
      simp only [List.mem_cons, List.not_mem_nil, or_false] at hc
      rcases hc with rfl | rfl | rfl <;> exact targetsPart_of_tgt rfl
    · exact ⟨_, List.mem_cons_self _ _, targetsPart_of_tgt rfl,
        ⟨_, getGround_mem _ hk, rfl⟩,
        survivorTgt_pinRef _ _ (by decide) (by decide) (by decide)⟩
    · exact ⟨_, List.mem_cons_of_mem _ (List.mem_cons_of_mem _ (List.mem_cons_self _ _)),
        targetsPart_of_tgt rfl, not_groundSrc_of_pin rfl (getNextPwm_not_ground hpf hpwm)⟩
  | ultrasonic =>
    simp only [wireComponent, hcat]
    refine ⟨by simp, ?_, fun _ => ⟨?_, ?_⟩⟩
    · intro c hc
      simp only [List.mem_cons, List.not_mem_nil, or_false] at hc
      rcases hc with rfl | rfl | rfl | rfl <;> exact targetsPart_of_tgt rfl
    · exact ⟨_, List.mem_cons_self _ _, targetsPart_of_tgt rfl,
        ⟨_, getGround_mem _ hk, rfl⟩,
        survivorTgt_pinRef _ _ (by decide) (by decide) (by decide)⟩
    · exact ⟨_, List.mem_cons_of_mem _ (List.mem_cons_of_mem _ (List.mem_cons_self _ _)),
        targetsPart_of_tgt rfl, not_groundSrc_of_pin rfl (getNextDigital_not_ground hdf hdig)⟩
  | pot =>
    simp only [wireComponent, hcat]
    refine ⟨by simp, ?_, fun _ => ⟨?_, ?_⟩⟩
    · intro c hc
      simp only [List.mem_cons, List.not_mem_nil, or_false] at hc
      rcases hc with rfl | rfl | rfl <;> exact targetsPart_of_tgt rfl
    · exact ⟨_, List.mem_cons_self _ _, targetsPart_of_tgt rfl,
        ⟨_, getGround_mem _ hk, rfl⟩,
        survivorTgt_pinRef _ _ (by decide) (by decide) (by decide)⟩
    · exact ⟨_, List.mem_cons_of_mem _ (List.mem_cons_of_mem _ (List.mem_cons_self _ _)),
        targetsPart_of_tgt rfl, not_groundSrc_of_pin rfl (getNextAnalog_not_ground haf hana)⟩
  | other =>
    simp only [wireComponent, hcat]
    refine ⟨by simp, ?_, fun _ => ⟨?_, ?_⟩⟩
    · intro c hc
      simp only [List.mem_cons, List.not_mem_nil, or_false] at hc
      rcases hc with rfl | rfl <;> exact targetsPart_of_tgt rfl
    · exact ⟨_, List.mem_cons_self _ _, targetsPart_of_tgt rfl,
        ⟨_, getGround_mem _ hk, rfl⟩,
        survivorTgt_pinRef _ _ (by decide) (by decide) (by decide)⟩
    · exact ⟨_, List.mem_cons_of_mem _ (List.mem_cons_self _ _),
        targetsPart_of_tgt rfl, not_groundSrc_of_pin rfl (getNextDigital_not_ground hdf hdig)⟩

theorem resultConns_generate {parts : List Part} {mcu : Part}
    (hm : parts.find? (fun q => mcuMatchB q.type) = some mcu) :
    resultConns (generateWithPatterns parts) =
      (addAutoLoop true 1
        (componentsNeedingResistors parts
          ((wireAll (getPinAllocator mcu.type) mcu parts initAllocState).1))
        parts ((wireAll (getPinAllocator mcu.type) mcu parts initAllocState).1)).2 := by
  simp [generateWithPatterns, hm, addAutomaticResistors, resultConns, finalizeDiagram]

/-- Counterexample input for claim C7: an Uno plus a standalone resistor
    part. -/
def c7Parts : List Part :=
  [{ type := chars "wokwi-arduino-uno", id := chars "mcu" },
   { type := chars "wokwi-resistor", id := chars "res1" }]

/-- The standalone resistor of the C7 counterexample. -/
def c7Res : Part := { type := chars "wokwi-resistor", id := chars "res1" }

/-- The MCU of the C7 counterexample. -/
def c7Mcu : Part := { type := chars "wokwi-arduino-uno", id := chars "mcu" }

/-- Counterexample to claim C7 as stated: the standalone resistor part is
    wired through the resistor rule with two digital signal wires and
    receives no ground connection at all. -/
theorem c7_counterexample :
    ¬ ∃ c ∈ resultConns (generateWithPatterns c7Parts),
        targetsPart c7Res c ∧ groundSrc c7Mcu (getPinAllocator c7Mcu.type) c := by
  decide

/-- Claim C7 (amended): for every parts list whose first MCU-family part
    is `mcu`, every other part receives at least one connection, and
    every other part that does not dispatch to the standalone-resistor
    rule receives at least one connection driven from an MCU ground pin
    and at least one connection driven from a non-ground MCU pin.  (A
    standalone resistor gets two signal wires but, as the counterexample
    shows, possibly no ground wire.) -/
theorem c7_every_part_connected (parts : List Part) (mcu : Part)
    (hm : parts.find? (fun q => mcuMatchB q.type) = some mcu)
    (p : Part) (hp : p ∈ parts) (hpm : p ≠ mcu) :
    (∃ c ∈ resultConns (generateWithPatterns parts), targetsPart p c) ∧
    (categorize p.type ≠ PartCategory.resistor →
      (∃ c ∈ resultConns (generateWithPatterns parts),
        targetsPart p c ∧ groundSrc mcu (getPinAllocator mcu.type) c) ∧
      (∃ c ∈ resultConns (generateWithPatterns parts),
        targetsPart p c ∧ ¬ groundSrc mcu (getPinAllocator mcu.type) c)) := by
  have hcase := getPinAllocator_cases mcu.type
  have hgg : groundPinsGood (getPinAllocator mcu.type) := by
    rcases hcase with h | h | h <;> rw [h]
    · exact groundPinsGood_all.1
    · exact groundPinsGood_all.2.1
    · exact groundPinsGood_all.2.2
  have hsig : signalAvoidsGround (getPinAllocator mcu.type) := by
    rcases hcase with h | h | h <;> rw [h]
    · exact signalAvoidsGround_all.1
    · exact signalAvoidsGround_all.2.1
    · exact signalAvoidsGround_all.2.2
  obtain ⟨s0, hsub⟩ :=
    wireAll_subset (F := getPinAllocator mcu.type) (s := initAllocState) hp hpm
  have hfacts := wireComponent_facts (getPinAllocator mcu.type) mcu p s0 hgg.1 hsig
  rw [resultConns_generate hm]
  refine ⟨?_, fun hne => ?_⟩
  · obtain ⟨c, hc⟩ := List.exists_mem_of_ne_nil _ hfacts.1
    have hct := hfacts.2.1 c hc
    exact addAutoLoop_target true _ _ _ _ ⟨c, hsub c hc, hct⟩
  · obtain ⟨⟨cg, hcg, hcgt, hcggr, hcgs⟩, ⟨cx, hcx, hcxt, hcxn⟩⟩ := hfacts.2.2 hne
    constructor
    · exact ⟨cg, addAutoLoop_mem_survivor true hcgs _ _ _ _ (hsub cg hcg), hcgt, hcggr⟩
    · exact addAutoLoop_signal true hgg.2 _ _ _ _ ⟨cx, hsub cx hcx, hcxt, hcxn⟩

/-- The amended-C7 witness input: an Uno plus an unrecognized module. -/
def c7wParts : List Part :=
  [{ type := chars "wokwi-arduino-uno", id := chars "mcu" },
   { type := chars "mystery-module", id := chars "m1" }]

/-- The unrecognized module of the amended-C7 witness. -/
def c7Myst : Part := { type := chars "mystery-module", id := chars "m1" }

/-- Witness for the amended C7 at the concrete mystery-module input. -/
theorem c7_every_part_connected_witness :
    (∃ c ∈ resultConns (generateWithPatterns c7wParts), targetsPart c7Myst c) ∧
    (categorize c7Myst.type ≠ PartCategory.resistor →
      (∃ c ∈ resultConns (generateWithPatterns c7wParts),
        targetsPart c7Myst c ∧ groundSrc c7Mcu (getPinAllocator c7Mcu.type) c) ∧
      (∃ c ∈ resultConns (generateWithPatterns c7wParts),
        targetsPart c7Myst c ∧ ¬ groundSrc c7Mcu (getPinAllocator c7Mcu.type) c)) :=
  c7_every_part_connected c7wParts c7Mcu (by decide) c7Myst (by decide) (by decide)

/-- `find?` returns the first match: the characterization used by claim
    C10 for MCU selection. -/
theorem find?_first_mcu :
    ∀ (l : List Part) (i : Nat) (hi : i < l.length),
      mcuMatchB (l.get ⟨i, hi⟩).type = true →
      (∀ j, (hj : j < i) → mcuMatchB (l.get ⟨j, Nat.lt_trans hj hi⟩).type = false) →
      l.find? (fun r => mcuMatchB r.type) = some (l.get ⟨i, hi⟩) := by
  intro l
  induction l with
  | nil => intro i hi; simp at hi
  | cons x xs ih =>
    intro i hi hmi hfirst
    cases i with
    | zero =>
      exact List.find?_cons_of_pos _ hmi
    | succ i' =>
      have hx : mcuMatchB x.type = false := hfirst 0 (Nat.succ_pos i')
      rw [List.find?_cons_of_neg _ (by simp [hx])]
      have hi' : i' < xs.length := by simpa using Nat.lt_of_succ_lt_succ hi
      have hmi' : mcuMatchB (xs.get ⟨i', hi'⟩).type = true := hmi
      exact ih i' hi' hmi' (fun j hj => hfirst (j + 1) (Nat.succ_lt_succ hj))

/-- Claim C10: the MCU hub is the first part in input order whose type
    contains an MCU-family keyword; the standard MCU type strings all
    miss every peripheral rule; and a later MCU-family part whose type
    matches no peripheral rule is wired as a peripheral by the default
    rule: one ground wire to its GND pin (black) and one generic signal
    wire to its SIG pin (gray). -/
theorem c10_first_mcu_hub (parts : List Part) (i : Nat) (hi : i < parts.length)
    (hmi : mcuMatchB (parts.get ⟨i, hi⟩).type = true)
    (hfirst : ∀ j, (hj : j < i) → mcuMatchB (parts.get ⟨j, Nat.lt_trans hj hi⟩).type = false)
    (q : Part) (hq : q ∈ parts) (hqm : q ≠ parts.get ⟨i, hi⟩)
    (_hqmcu : mcuMatchB q.type = true) (hqcat : categorize q.type = PartCategory.other) :
    parts.find? (fun r => mcuMatchB r.type) = some (parts.get ⟨i, hi⟩) ∧
    categorize (chars "wokwi-arduino-uno") = PartCategory.other ∧
    categorize (chars "wokwi-arduino-mega") = PartCategory.other ∧
    categorize (chars "wokwi-arduino-nano") = PartCategory.other ∧
    categorize (chars "wokwi-esp32-devkit-v1") = PartCategory.other ∧
    (∃ g pth, g ∈ (getPinAllocator (parts.get ⟨i, hi⟩).type).groundPins ∧
      Conn.mk (pinRef (parts.get ⟨i, hi⟩).id g) (pinRef q.id (chars "GND"))
          (chars "black") pth ∈ resultConns (generateWithPatterns parts)) ∧
    (∃ x pth, Conn.mk (pinRef (parts.get ⟨i, hi⟩).id x) (pinRef q.id (chars "SIG"))
          (chars "gray") pth ∈ resultConns (generateWithPatterns parts)) := by
  set mcu := parts.get ⟨i, hi⟩ with hmcu
  have hm : parts.find? (fun r => mcuMatchB r.type) = some mcu :=
    find?_first_mcu parts i hi hmi hfirst
  have hcase := getPinAllocator_cases mcu.type
  have hgk : 0 < (getPinAllocator mcu.type).groundPins.length := by
    rcases hcase with h | h | h <;> rw [h]
    · exact groundPinsGood_all.1.1
    · exact groundPinsGood_all.2.1.1
    · exact groundPinsGood_all.2.2.1
  obtain ⟨s0, hsub⟩ :=
    wireAll_subset (F := getPinAllocator mcu.type) (s := initAllocState) hq hqm
  have hwc : (wireComponent (getPinAllocator mcu.type) mcu q s0).1 =
      [⟨pinRef mcu.id
          (getGround (getPinAllocator mcu.type)
            (getNextDigital (getPinAllocator mcu.type) s0).2).1,
        pinRef q.id (chars "GND"), chars "black", (calculateWirePaths mcu q).power⟩,
       ⟨pinRef mcu.id (getNextDigital (getPinAllocator mcu.type) s0).1,
        pinRef q.id (chars "SIG"), chars "gray", (calculateWirePaths mcu q).digital1⟩] := by
    simp [wireComponent, hqcat]
  rw [resultConns_generate hm]
  refine ⟨hm, by decide, by decide, by decide, by decide, ?_, ?_⟩
  · refine ⟨(getGround (getPinAllocator mcu.type)
        (getNextDigital (getPinAllocator mcu.type) s0).2).1,
      (calculateWirePaths mcu q).power, getGround_mem _ hgk, ?_⟩
    apply addAutoLoop_mem_survivor true
      (survivorTgt_pinRef _ _ (by decide) (by decide) (by decide))
    apply hsub
    rw [hwc]
    exact List.mem_cons_self _ _
  · refine ⟨(getNextDigital (getPinAllocator mcu.type) s0).1,
      (calculateWirePaths mcu q).digital1, ?_⟩
    apply addAutoLoop_mem_survivor true
      (survivorTgt_pinRef _ _ (by decide) (by decide) (by decide))
    apply hsub
    rw [hwc]
    exact List.mem_cons_of_mem _ (List.mem_cons_self _ _)

/-- The C10 witness input: two Arduino Unos; the second is wired as a
    peripheral via the default rule. -/
def c10Parts : List Part :=
  [{ type := chars "wokwi-arduino-uno", id := chars "mcu1" },
   { type := chars "wokwi-arduino-uno", id := chars "mcu2" }]

/-- The second MCU-family part of the C10 witness. -/
def c10Second : Part := { type := chars "wokwi-arduino-uno", id := chars "mcu2" }

/-- Witness for C10 at the concrete two-Uno input. -/
theorem c10_first_mcu_hub_witness :
    c10Parts.find? (fun r => mcuMatchB r.type) =
      some (c10Parts.get ⟨0, by decide⟩) ∧
    categorize (chars "wokwi-arduino-uno") = PartCategory.other ∧
    categorize (chars "wokwi-arduino-mega") = PartCategory.other ∧
    categorize (chars "wokwi-arduino-nano") = PartCategory.other ∧
    categorize (chars "wokwi-esp32-devkit-v1") = PartCategory.other ∧
    (∃ g pth, g ∈ (getPinAllocator (c10Parts.get ⟨0, by decide⟩).type).groundPins ∧
      Conn.mk (pinRef (c10Parts.get ⟨0, by decide⟩).id g) (pinRef c10Second.id (chars "GND"))
          (chars "black") pth ∈ resultConns (generateWithPatterns c10Parts)) ∧
    (∃ x pth, Conn.mk (pinRef (c10Parts.get ⟨0, by decide⟩).id x) (pinRef c10Second.id (chars "SIG"))
          (chars "gray") pth ∈ resultConns (generateWithPatterns c10Parts)) :=
  c10_first_mcu_hub c10Parts 0 (by decide) (by decide)
    (fun j hj => absurd hj (Nat.not_lt_zero j)) c10Second (by decide) (by decide)
    (by decide) (by decide)

/-- Witness for C6 at the fully exhausted Uno state. -/
theorem c6_exhaustion_fallback_witness :
    (getNextDigital ArduinoUnoPinAllocator exhaustedUnoState).1 =
      ArduinoUnoPinAllocator.digitalFallback ∧
    (getNextAnalog ArduinoUnoPinAllocator exhaustedUnoState).1 =
      ArduinoUnoPinAllocator.analogFallback ∧
    (getNextPwm ArduinoUnoPinAllocator exhaustedUnoState).1 =
      ArduinoUnoPinAllocator.pwmFallback ∧
    ArduinoUnoPinAllocator.digitalFallback = chars "2" ∧
    ArduinoUnoPinAllocator.analogFallback = chars "A0" ∧
    ArduinoUnoPinAllocator.pwmFallback = chars "3" :=
  c6_exhaustion_fallback ArduinoUnoPinAllocator exhaustedUnoState
    (by decide) (by decide) (by decide)

end CircuitGen
